import Mathlib

/-
Verification of the s2omp circle_bound component (src/trunk/s2omp/circle_bound.cc).

The embedding uses exact rationals for all coordinates, heights and weights
(the C++ code computes with doubles; every branch condition here is the same
algebraic comparison the code performs).  The external pixel collaborator is
modelled as a finite tree carrying its interface: four (indexed) vertices,
four (indexed) edge directions, a point-containment test, an exact area and a
list of children.  Areas are real-valued since the code multiplies by pi.
The Mersenne-twister outputs consumed by the random-sampling functions are
passed in explicitly as oracle arguments, so the deterministic data flow of
those functions is preserved exactly.
-/

namespace s2omp

/-- Unit-sphere point with a scalar weight, modelling the external `point`
primitive (dot product, cross product, unary negation, weight accessors). -/
structure point where
  x : ℚ
  y : ℚ
  z : ℚ
  weight : ℚ

instance : Inhabited point := ⟨⟨0, 0, 0, 0⟩⟩

/-- Euclidean dot product of the coordinate parts (weights ignored), as
`point::dot`. -/
def point.dot (p q : point) : ℚ :=
  p.x * q.x + p.y * q.y + p.z * q.z

/-- Cross product of the coordinate parts, as `point::cross`; the weight of
the result is never inspected by the code under verification. -/
def point.cross (p q : point) : point :=
  ⟨p.y * q.z - p.z * q.y, p.z * q.x - p.x * q.z, p.x * q.y - p.y * q.x, 1⟩

/-- Coordinate negation `-p`, used by `circle_bound::complement` on the axis. -/
def point.neg (p : point) : point :=
  ⟨-p.x, -p.y, -p.z, p.weight⟩

/-- Unit-length predicate for a point's coordinate part. -/
def point.is_unit (p : point) : Prop :=
  p.x ^ 2 + p.y ^ 2 + p.z ^ 2 = 1

/-- The external `pixel` primitive: a quadrilateral cell exposing indexed
vertices, indexed edge directions, a point-containment test, an exact area
and the (finite) list of its children at the next finer resolution. -/
inductive pixel where
  | mk (vertex : ℕ → point) (edge : ℕ → point) (containsPt : point → Bool)
      (exact_area : ℝ) (children : List pixel)

/-- Vertex accessor, as `pixel::vertex(k)`. -/
def pixel.vertex : pixel → ℕ → point
  | .mk v _ _ _ _ => v

/-- Edge-direction accessor, as `pixel::edge(k)`. -/
def pixel.edge : pixel → ℕ → point
  | .mk _ e _ _ _ => e

/-- Point containment test of the pixel, as `pixel::contains(point)`. -/
def pixel.containsPt : pixel → point → Bool
  | .mk _ _ c _ _ => c

/-- Exact area of the pixel, as `pixel::exact_area()`. -/
noncomputable def pixel.exact_area : pixel → ℝ
  | .mk _ _ _ a _ => a

/-- Children of the pixel, as the range `child_begin() .. child_end()`. -/
def pixel.children : pixel → List pixel
  | .mk _ _ _ _ ch => ch

/-- The spherical-cap region: an axis point and a height, as the two data
members of `circle_bound`. -/
structure circle_bound where
  axis : point
  height : ℚ

/-- Emptiness test, as `circle_bound::is_empty` (`height_ < 0`). -/
def circle_bound.is_empty (b : circle_bound) : Bool :=
  decide (b.height < 0)

/-- Region count, as `circle_bound::size`: 0 when empty, else 1. -/
def circle_bound.size (b : circle_bound) : ℤ :=
  if b.is_empty then 0 else 1

/-- Solid angle, as `circle_bound::area`: `2*PI*height_` when non-empty,
else 0. -/
noncomputable def circle_bound.area (b : circle_bound) : ℝ :=
  if !b.is_empty then 2 * Real.pi * (b.height : ℝ) else 0

/-- Point containment, as `circle_bound::contains(const point&)`:
`height_ >= 1.0 - axis_.dot(p)`. -/
def circle_bound.contains_point (b : circle_bound) (p : point) : Bool :=
  decide (b.height ≥ 1 - b.axis.dot p)

/-- Complement, as `circle_bound::complement`: axis negated, height `2.0`
when the receiver is empty and `2.0 - height_` otherwise. -/
def circle_bound.complement (b : circle_bound) : circle_bound :=
  if b.is_empty then ⟨b.axis.neg, 2⟩ else ⟨b.axis.neg, 2 - b.height⟩

/-- Edge loop of `circle_bound::intersects`, iterating over the listed edge
indices: an edge with positive dot product against the axis is skipped; an
edge with non-positive dot whose squared dot exceeds `sin2_angle` returns
false immediately; otherwise the great-circle crossing is confirmed against
the two endpoint vertices (`vertices[k]`, `vertices[(k+1)&3]`). -/
def circle_bound.intersects_edge_loop (b : circle_bound) (pix : pixel)
    (vertices : List point) (sin2 : ℚ) : List ℕ → Bool
  | [] => false
  | k :: ks =>
    let edge := pix.edge k
    let dot := b.axis.dot edge
    if dot > 0 then b.intersects_edge_loop pix vertices sin2 ks
    else if dot * dot > sin2 then false
    else
      let dir := edge.cross b.axis
      if dir.dot (vertices.getD k default) < 0 ∧
          dir.dot (vertices.getD ((k + 1) % 4) default) > 0 then true
      else b.intersects_edge_loop pix vertices sin2 ks

/-- Edge/vertex intersection test, as `circle_bound::intersects(pixel,
vertices)`: false for a hemisphere or larger, false for an empty cap, true
when the pixel contains the axis, else the edge loop over edges 0..3. -/
def circle_bound.intersects (b : circle_bound) (pix : pixel)
    (vertices : List point) : Bool :=
  if b.height ≥ 1 then false
  else if b.is_empty then false
  else if pix.containsPt b.axis then true
  else b.intersects_edge_loop pix vertices (b.height * (2 - b.height)) [0, 1, 2, 3]

/-- Vertex loop of `circle_bound::may_intersect`: each of the four
iterations pushes `pix.vertex(4)` (exactly as the code does — the loop index
`k` is not used in the fetch) and returns true as soon as the pushed vertex
is contained; after four iterations it delegates to `intersects` on the
accumulated vertex list. -/
def circle_bound.may_intersect_loop (b : circle_bound) (pix : pixel)
    (vertices : List point) : List ℕ → Bool
  | [] => b.intersects pix vertices
  | _k :: ks =>
    let v := pix.vertex 4
    if b.contains_point v then true
    else b.may_intersect_loop pix (vertices ++ [v]) ks

/-- Intersection predicate, as `circle_bound::may_intersect(pixel)`: the
vertex loop over `k = 0..3` followed by the delegation to `intersects`. -/
def circle_bound.may_intersect (b : circle_bound) (pix : pixel) : Bool :=
  b.may_intersect_loop pix [] [0, 1, 2, 3]

/-- Pixel containment, as `circle_bound::contains(const pixel&)`: false as
soon as one of the four vertices is not contained, otherwise true exactly
when the complement does not may-intersect the pixel. -/
def circle_bound.contains_pixel (b : circle_bound) (pix : pixel) : Bool :=
  if b.contains_point (pix.vertex 0) && b.contains_point (pix.vertex 1) &&
      b.contains_point (pix.vertex 2) && b.contains_point (pix.vertex 3) then
    !(b.complement.may_intersect pix)
  else false

/-- Recursive area integration, as `circle_bound::contained_area`: the exact
area of a fully contained pixel, the sum over the children of a pixel that
may intersect, and 0 otherwise. -/
noncomputable def circle_bound.contained_area (b : circle_bound) : pixel → ℝ
  | pixel.mk v e c a ch =>
    if b.contains_pixel (pixel.mk v e c a ch) then a
    else if b.may_intersect (pixel.mk v e c a ch) then
      (ch.attach.map (fun q => b.contained_area q.1)).sum
    else 0
decreasing_by
  simp only [pixel.mk.sizeOf_spec]
  have h := List.sizeOf_lt_of_mem q.2
  omega

/-- Single weighted random draw, as `circle_bound::get_weighted_random_point`:
the spatial draw (`get_random_point()`, abstracted as the oracle argument
`draw` since it consumes the external RNG and trigonometry) gets its weight
set to `points[idx].weight()` where `idx` is the RNG output
`mtrand.randInt(points.size())`, also passed as an oracle argument. -/
def circle_bound.get_weighted_random_point (b : circle_bound) (draw : point)
    (idx : ℕ) (points : List point) : point :=
  { draw with weight := (points.getD idx default).weight }

/-- Batch weighted random draws, as
`circle_bound::get_weighted_random_points`: for each `i < n` the i-th
spatial draw gets its weight set to the raw RNG output
`mtrand.randInt(input_points.size())` itself (the code does not index
`input_points` with it). The i-th spatial draw and the i-th RNG output are
the oracle arguments `draws i` and `idxs i`. -/
def circle_bound.get_weighted_random_points (b : circle_bound) (n : ℕ)
    (draws : ℕ → point) (idxs : ℕ → ℕ) (input_points : List point) :
    List point :=
  (List.range n).map (fun i => { draws i with weight := ((idxs i : ℤ) : ℚ) })

/-- Dot product of the bound's axis with the pixel's edge `k`, the quantity
`dot` of the edge loop. -/
def edge_dot (b : circle_bound) (pix : pixel) (k : ℕ) : ℚ :=
  b.axis.dot (pix.edge k)

/-- The quantity `sin2_angle = height_ * (2 - height_)` of the edge loop. -/
def sin2_angle (b : circle_bound) : ℚ :=
  b.height * (2 - b.height)

/-- Edge `k` is skipped by the edge loop: its dot product is positive. -/
def edge_skipped (b : circle_bound) (pix : pixel) (k : ℕ) : Prop :=
  0 < edge_dot b pix k

/-- Edge `k` satisfies `dot <= 0` and `dot * dot > sin2_angle`: its closest
approach to the axis lies outside the cap. -/
def edge_terminates (b : circle_bound) (pix : pixel) (k : ℕ) : Prop :=
  edge_dot b pix k ≤ 0 ∧ sin2_angle b < edge_dot b pix k * edge_dot b pix k

/-- Edge `k` confirms a crossing against the vertex list `vs`: `dot <= 0`,
`dot * dot <= sin2_angle`, and the direction `edge x axis` separates
`vs[k]` from `vs[(k+1) mod 4]` with the strict signs the code tests. -/
def edge_confirms (b : circle_bound) (pix : pixel) (vs : List point)
    (k : ℕ) : Prop :=
  edge_dot b pix k ≤ 0 ∧
    edge_dot b pix k * edge_dot b pix k ≤ sin2_angle b ∧
    ((pix.edge k).cross b.axis).dot (vs.getD k default) < 0 ∧
    0 < ((pix.edge k).cross b.axis).dot (vs.getD ((k + 1) % 4) default)

/-- Edge `k` lets the edge loop move on to the next edge: it is either
skipped, or neither terminating nor confirming. -/
def edge_continues (b : circle_bound) (pix : pixel) (vs : List point)
    (k : ℕ) : Prop :=
  edge_skipped b pix k ∨
    (¬edge_terminates b pix k ∧ ¬edge_confirms b pix vs k)

/-- North-pole point, used as a concrete axis and vertex. -/
def pN : point := ⟨0, 0, 1, 1⟩

/-- South-pole point. -/
def pS : point := ⟨0, 0, -1, 1⟩

/-- Equatorial point on the x axis. -/
def pX : point := ⟨1, 0, 0, 1⟩

/-- Equatorial point on the y axis. -/
def pY : point := ⟨0, 1, 0, 1⟩

/-- Equatorial point opposite `pY`. -/
def pYn : point := ⟨0, -1, 0, 1⟩

/-- Cap of height 1/2 around the north pole. -/
def bHalf : circle_bound := ⟨pN, 1/2⟩

/-- Hemisphere around the north pole (height 1). -/
def bOne : circle_bound := ⟨pN, 1⟩

/-- Cap of height 3/2 around the north pole. -/
def bBig : circle_bound := ⟨pN, 3/2⟩

/-- Full sphere (height 2). -/
def bTwo : circle_bound := ⟨pN, 2⟩

/-- Default-constructed empty bound (height -1). -/
def bEmpty : circle_bound := ⟨pN, -1⟩

/-- Pixel whose vertex 0 is the north pole but whose vertex 4 is an
equatorial point; every edge direction is the north pole itself, so each
edge has positive dot against a north-pole axis and the edge loop skips all
four edges. -/
def pixA : pixel :=
  pixel.mk (fun k => if k = 0 then pN else pX) (fun _ => pN) (fun _ => false)
    0 []

/-- Pixel whose edge 0 is the south pole (terminating edge for `bHalf`) and
whose edge 1 is `pX` (a confirming edge for `bHalf` against `vsB`). -/
def pixB : pixel :=
  pixel.mk (fun _ => pN) (fun k => if k = 0 then pS else if k = 1 then pX else pN)
    (fun _ => false) 0 []

/-- Vertex list making edge 1 of `pixB` a confirming edge for `bHalf`. -/
def vsB : List point := [pN, pY, pYn, pN]

/-- Pixel whose edge 0 is `pX`, a confirming edge for `bHalf` against
`vsBw`. -/
def pixBw : pixel :=
  pixel.mk (fun _ => pN) (fun _ => pX) (fun _ => false) 0 []

/-- Vertex list making edge 0 of `pixBw` a confirming edge for `bHalf`. -/
def vsBw : List point := [pY, pYn, pN, pN]

/-- Pixel whose four vertices all lie inside `bBig` while its edge 0 great
circle cuts through the complement of `bBig` between vertices 0 and 1. -/
def pixC : pixel :=
  pixel.mk (fun k => if k = 0 then pYn else if k = 1 then pY else pN)
    (fun _ => pX) (fun _ => false) 0 []

/-- Pixel with all vertices at the north pole, no children and a pixel
containment test that always fails. -/
def pixN : pixel :=
  pixel.mk (fun _ => pN) (fun _ => pN) (fun _ => false) 0 []

/-- Pixel whose containment test always succeeds (its vertices are
equatorial). -/
def pixT : pixel :=
  pixel.mk (fun _ => pX) (fun _ => pN) (fun _ => true) 0 []

/-- Reference point list holding a single point of weight 5. -/
def refPts : List point := [⟨1, 0, 0, 5⟩]

/-- Concrete spatial draw used with the weighted sampling oracles. -/
def drawPt : point := ⟨0, 0, 1, 1⟩

theorem is_empty_iff (b : circle_bound) : b.is_empty = true ↔ b.height < 0 := by
  simp [circle_bound.is_empty]

theorem is_empty_false_of_nonneg (b : circle_bound) (h : 0 ≤ b.height) :
    b.is_empty = false := by
  simp [circle_bound.is_empty]
  linarith

theorem contains_point_iff (b : circle_bound) (p : point) :
    b.contains_point p = true ↔ 1 - b.axis.dot p ≤ b.height := by
  simp [circle_bound.contains_point, ge_iff_le]

theorem point.dot_le_one {p q : point} (hp : p.is_unit) (hq : q.is_unit) :
    p.dot q ≤ 1 := by
  unfold point.is_unit at hp hq
  unfold point.dot
  nlinarith [sq_nonneg (p.x - q.x), sq_nonneg (p.y - q.y), sq_nonneg (p.z - q.z)]

theorem point.neg_neg (p : point) : p.neg.neg = p := by
  cases p
  simp [point.neg]

theorem complement_of_nonneg (b : circle_bound) (h : 0 ≤ b.height) :
    b.complement = ⟨b.axis.neg, 2 - b.height⟩ := by
  simp [circle_bound.complement, is_empty_false_of_nonneg b h]

/-- C5: `contains(p)` holds exactly when `1 - axis·p ≤ height`, a non-strict
boundary policy; for the hemisphere `axis = (0,0,1)`, `height = 1`, the
north pole is contained, the south pole is not, and the boundary point
`(1,0,0)` is contained. -/
theorem C5_contains_point_boundary :
    (∀ (b : circle_bound) (p : point),
        b.contains_point p = true ↔ 1 - b.axis.dot p ≤ b.height) ∧
    bOne.contains_point ⟨0, 0, 1, 1⟩ = true ∧
    bOne.contains_point ⟨0, 0, -1, 1⟩ = false ∧
    bOne.contains_point ⟨1, 0, 0, 1⟩ = true := by
  refine ⟨contains_point_iff, ?_, ?_, ?_⟩ <;>
    norm_num [circle_bound.contains_point, point.dot, bOne, pN]

/-- C5 witness: the boundary point `(1,0,0)` of the hemisphere, checked by
applying the containment characterization at that concrete input. -/
theorem C5_witness : bOne.contains_point pX = true :=
  (C5_contains_point_boundary.1 bOne pX).mpr
    (by norm_num [point.dot, bOne, pN, pX])

/-- C6: for a bound with height in `[0, 2]`, the cap area `2*pi*height` and
the area of the complement (axis negated, height `2 - height`) sum to
`4*pi`. -/
theorem C6_area_complement_sum (b : circle_bound) (h0 : 0 ≤ b.height)
    (h2 : b.height ≤ 2) : b.area + b.complement.area = 4 * Real.pi := by
  have he : b.is_empty = false := is_empty_false_of_nonneg b h0
  rw [complement_of_nonneg b h0]
  have hce : (⟨b.axis.neg, 2 - b.height⟩ : circle_bound).is_empty = false := by
    simp [circle_bound.is_empty]
    linarith
  simp [circle_bound.area, he, hce]
  ring

/-- C6 witness: the hemisphere of height 1 around the north pole. -/
theorem C6_witness : bOne.area + bOne.complement.area = 4 * Real.pi :=
  C6_area_complement_sum bOne (by norm_num [bOne]) (by norm_num [bOne])

/-- C10: for a bound with height in `[0, 2]`, the complement is non-empty
(its height `2 - height` is at least 0) and taking the complement twice
restores both the axis and the height. -/
theorem C10_complement_involution (b : circle_bound) (h0 : 0 ≤ b.height)
    (h2 : b.height ≤ 2) :
    0 ≤ b.complement.height ∧ b.complement.is_empty = false ∧
    b.complement.complement.axis = b.axis ∧
    b.complement.complement.height = b.height := by
  rw [complement_of_nonneg b h0]
  have hh : (0:ℚ) ≤ 2 - b.height := by linarith
  rw [complement_of_nonneg _ hh]
  exact ⟨hh, is_empty_false_of_nonneg _ hh, by simp [point.neg_neg], by ring⟩

/-- C10 witness: the hemisphere of height 1 around the north pole. -/
theorem C10_witness :
    0 ≤ bOne.complement.height ∧ bOne.complement.is_empty = false ∧
    bOne.complement.complement.axis = bOne.axis ∧
    bOne.complement.complement.height = bOne.height :=
  C10_complement_involution bOne (by norm_num [bOne]) (by norm_num [bOne])

/-- C4: every query degrades gracefully on an empty bound (height below 0,
unit axis): the area and size are 0, no unit point is contained, no pixel
with unit vertices may-intersect, and the edge/vertex intersection test is
false for every pixel and vertex list. -/
theorem C4_empty_region (b : circle_bound) (hax : b.axis.is_unit)
    (h : b.height < 0) :
    b.area = 0 ∧ b.size = 0 ∧
    (∀ p : point, p.is_unit → b.contains_point p = false) ∧
    (∀ pix : pixel, (∀ k, (pix.vertex k).is_unit) →
      b.may_intersect pix = false) ∧
    (∀ (pix : pixel) (vs : List point), b.intersects pix vs = false) := by
  have he : b.is_empty = true := by simp [circle_bound.is_empty, h]
  have hcont : ∀ p : point, p.is_unit → b.contains_point p = false := by
    intro p hp
    have hd := point.dot_le_one hax hp
    simp [circle_bound.contains_point]
    linarith
  have hint : ∀ (pix : pixel) (vs : List point), b.intersects pix vs = false := by
    intro pix vs
    have h1 : ¬b.height ≥ 1 := by linarith
    simp [circle_bound.intersects, h1, he]
  refine ⟨?_, ?_, hcont, ?_, hint⟩
  · simp [circle_bound.area, he]
  · simp [circle_bound.size, he]
  · intro pix hv
    have hc := hcont (pix.vertex 4) (hv 4)
    simp [circle_bound.may_intersect, circle_bound.may_intersect_loop, hc, hint]

/-- C4 witness: the default-constructed empty bound of height -1, evaluated
on an equatorial point and a pixel whose vertices sit at the north pole. -/
theorem C4_witness :
    bEmpty.area = 0 ∧ bEmpty.size = 0 ∧ bEmpty.contains_point pX = false ∧
    bEmpty.may_intersect pixN = false ∧ bEmpty.intersects pixN [] = false := by
  have h := C4_empty_region bEmpty (by norm_num [point.is_unit, bEmpty, pN])
    (by norm_num [bEmpty])
  exact ⟨h.1, h.2.1, h.2.2.1 pX (by norm_num [point.is_unit, pX]),
    h.2.2.2.1 pixN (fun k => by norm_num [pixel.vertex, pixN, point.is_unit, pN]),
    h.2.2.2.2 pixN []⟩

/-- C1: evaluation at the failing input.  For the cap `bHalf` and the pixel
`pixA`, vertex 0 of the pixel is contained in the bound, so the claim
requires `may_intersect` to return true; the code returns false because its
vertex loop fetches `pix.vertex(4)` on every iteration instead of
`pix.vertex(k)`, and vertex 4 of `pixA` is outside the cap. -/
theorem C1_may_intersect_fetches_vertex4 :
    bHalf.contains_point (pixA.vertex 0) = true ∧
    bHalf.may_intersect pixA = false := by
  constructor
  · norm_num [circle_bound.contains_point, pixel.vertex, pixA, point.dot,
      bHalf, pN]
  · norm_num [circle_bound.may_intersect, circle_bound.may_intersect_loop,
      circle_bound.intersects, circle_bound.intersects_edge_loop,
      circle_bound.contains_point, circle_bound.is_empty, pixel.vertex,
      pixel.edge, pixel.containsPt, point.dot, point.cross, bHalf, pixA,
      pN, pX]

/-- C3 counterexample: with one reference point of weight 5 and RNG oracle
index 0, the single-point form copies weight 5 from the chosen element,
while the batch form gives its point weight 0 — the raw random index — even
though no element of the reference list has weight 0.  The claim, which
says the batch form assigns weights exactly as the single form does, fails
at this input. -/
theorem C3_counterexample :
    (bOne.get_weighted_random_point drawPt 0 refPts).weight = 5 ∧
    ((bOne.get_weighted_random_points 1 (fun _ => drawPt) (fun _ => 0)
        refPts).getD 0 default).weight = 0 ∧
    ∀ q ∈ refPts, q.weight = 5 := by
  refine ⟨?_, ?_, ?_⟩
  · norm_num [circle_bound.get_weighted_random_point, refPts, drawPt]
  · norm_num [circle_bound.get_weighted_random_points, List.range_succ,
      refPts, drawPt]
  · intro q hq
    simp [refPts] at hq
    rw [hq]

/-- C3 amended: each of the `n` points produced by the batch form carries a
weight equal to the raw RNG output `mtrand.randInt(input_points.size())`
for its iteration (the indexed element of `reference_points` is never read),
while the single-point form does copy the weight field of the element at
the drawn index. -/
theorem C3_batch_weight_is_raw_index (b : circle_bound) (n : ℕ)
    (draws : ℕ → point) (idxs : ℕ → ℕ) (input : List point) (i : ℕ)
    (hi : i < n) :
    (b.get_weighted_random_points n draws idxs input).length = n ∧
    ((b.get_weighted_random_points n draws idxs input).getD i
      default).weight = ((idxs i : ℤ) : ℚ) ∧
    ∀ (draw : point) (j : ℕ) (pts : List point),
      (b.get_weighted_random_point draw j pts).weight
        = (pts.getD j default).weight := by
  refine ⟨by simp [circle_bound.get_weighted_random_points], ?_,
    fun draw j pts => rfl⟩
  have hlen : (b.get_weighted_random_points n draws idxs input).length = n := by
    simp [circle_bound.get_weighted_random_points]
  rw [List.getD_eq_getElem _ _ (by rw [hlen]; exact hi)]
  simp [circle_bound.get_weighted_random_points]

/-- C3 witness: batch of size 1 with RNG oracle index 7 — the produced
weight is 7 itself. -/
theorem C3_witness :
    ((bOne.get_weighted_random_points 1 (fun _ => drawPt) (fun _ => 7)
        refPts).getD 0 default).weight = 7 := by
  have h := C3_batch_weight_is_raw_index bOne 1 (fun _ => drawPt)
    (fun _ => 7) refPts 0 (by norm_num)
  simpa using h.2.1

/-- C9: evaluation at the failing input.  The pixel `pixC` has all four
vertices inside `bBig`, and the code reports `contains(pixel) = true`, yet
the complement's edge/vertex test on the pixel's actual four vertices
confirms a crossing at edge 0.  Consistency fails because `may_intersect`
(called on the complement inside `contains`) tests four copies of
`vertex(4)` instead of the four real vertices, so its crossing check can
never fire. -/
theorem C9_contains_vs_complement_intersects :
    bBig.contains_pixel pixC = true ∧
    bBig.complement.intersects pixC
      [pixC.vertex 0, pixC.vertex 1, pixC.vertex 2, pixC.vertex 3] = true := by
  constructor <;>
    norm_num [circle_bound.contains_pixel, circle_bound.complement,
      circle_bound.may_intersect, circle_bound.may_intersect_loop,
      circle_bound.intersects, circle_bound.intersects_edge_loop,
      circle_bound.contains_point, circle_bound.is_empty, point.neg,
      pixel.vertex, pixel.edge, pixel.containsPt, point.dot, point.cross,
      bBig, pixC, pN, pX, pY, pYn]

/-- C7: the shortcut cases of `intersects` fire in order — false for
`height >= 1`, then false for an empty bound, then true when the pixel
contains the axis, and only past those three does the work fall to the
per-edge loop. -/
theorem C7_intersects_shortcut_order (b : circle_bound) (pix : pixel)
    (vs : List point) :
    (1 ≤ b.height → b.intersects pix vs = false) ∧
    (b.height < 1 → b.height < 0 → b.intersects pix vs = false) ∧
    (b.height < 1 → 0 ≤ b.height → pix.containsPt b.axis = true →
      b.intersects pix vs = true) ∧
    (b.height < 1 → 0 ≤ b.height → pix.containsPt b.axis = false →
      b.intersects pix vs
        = b.intersects_edge_loop pix vs (b.height * (2 - b.height))
            [0, 1, 2, 3]) := by
  refine ⟨fun h1 => ?_, fun h1 h2 => ?_, fun h1 h2 h3 => ?_, fun h1 h2 h3 => ?_⟩
  · simp [circle_bound.intersects, ge_iff_le, h1]
  · have he : b.is_empty = true := by simp [circle_bound.is_empty, h2]
    simp [circle_bound.intersects, ge_iff_le, not_le.mpr h1, he]
  · have he : b.is_empty = false := is_empty_false_of_nonneg b h2
    simp [circle_bound.intersects, ge_iff_le, not_le.mpr h1, he, h3]
  · have he : b.is_empty = false := is_empty_false_of_nonneg b h2
    simp [circle_bound.intersects, ge_iff_le, not_le.mpr h1, he, h3]

/-- C7 witness: the four shortcut branches at concrete inputs — the full
sphere, the empty bound, a half cap over a pixel that contains the axis,
and a half cap over a pixel that does not. -/
theorem C7_witness :
    bTwo.intersects pixN [] = false ∧
    bEmpty.intersects pixN [] = false ∧
    bHalf.intersects pixT [] = true ∧
    bHalf.intersects pixA []
      = bHalf.intersects_edge_loop pixA [] (bHalf.height * (2 - bHalf.height))
          [0, 1, 2, 3] :=
  ⟨(C7_intersects_shortcut_order bTwo pixN []).1 (by norm_num [bTwo]),
    (C7_intersects_shortcut_order bEmpty pixN []).2.1 (by norm_num [bEmpty])
      (by norm_num [bEmpty]),
    (C7_intersects_shortcut_order bHalf pixT []).2.2.1 (by norm_num [bHalf])
      (by norm_num [bHalf]) (by norm_num [pixel.containsPt, pixT]),
    (C7_intersects_shortcut_order bHalf pixA []).2.2.2 (by norm_num [bHalf])
      (by norm_num [bHalf]) (by norm_num [pixel.containsPt, pixA])⟩

/-- C8: `contained_area` returns exactly the pixel's exact area when the
pixel is contained, otherwise the sum of `contained_area` over the pixel's
children when it may intersect, and otherwise 0. -/
theorem C8_contained_area_cases (b : circle_bound) (pix : pixel) :
    (b.contains_pixel pix = true → b.contained_area pix = pix.exact_area) ∧
    (b.contains_pixel pix = false → b.may_intersect pix = true →
      b.contained_area pix = (pix.children.map (b.contained_area)).sum) ∧
    (b.contains_pixel pix = false → b.may_intersect pix = false →
      b.contained_area pix = 0) := by
  cases pix with
  | mk v e c a ch =>
    refine ⟨fun h1 => ?_, fun h1 h2 => ?_, fun h1 h2 => ?_⟩
    · simp [circle_bound.contained_area, pixel.exact_area, h1]
    · simp [circle_bound.contained_area, pixel.children, h1, h2]
    · simp [circle_bound.contained_area, h1, h2]

/-- C8 witness: a childless pixel at the north pole — fully contained in
the hemisphere bound (area returned exactly) and disjoint from the empty
bound (area 0). -/
theorem C8_witness :
    bOne.contained_area pixN = pixN.exact_area ∧
    bEmpty.contained_area pixN = 0 := by
  constructor
  · refine (C8_contained_area_cases bOne pixN).1 ?_
    norm_num [circle_bound.contains_pixel, circle_bound.complement,
      circle_bound.may_intersect, circle_bound.may_intersect_loop,
      circle_bound.intersects, circle_bound.intersects_edge_loop,
      circle_bound.contains_point, circle_bound.is_empty, point.neg,
      pixel.vertex, pixel.edge, pixel.containsPt, point.dot, point.cross,
      bOne, pixN, pN]
  · refine (C8_contained_area_cases bEmpty pixN).2.2 ?_ ?_ <;>
      norm_num [circle_bound.contains_pixel, circle_bound.complement,
        circle_bound.may_intersect, circle_bound.may_intersect_loop,
        circle_bound.intersects, circle_bound.intersects_edge_loop,
        circle_bound.contains_point, circle_bound.is_empty, point.neg,
        pixel.vertex, pixel.edge, pixel.containsPt, point.dot, point.cross,
        bEmpty, pixN, pN]

theorem intersects_edge_loop_nil (b : circle_bound) (pix : pixel)
    (vs : List point) (s : ℚ) : b.intersects_edge_loop pix vs s [] = false :=
  rfl

theorem intersects_edge_loop_skip (b : circle_bound) (pix : pixel)
    (vs : List point) (s : ℚ) (k : ℕ) (ks : List ℕ)
    (h : 0 < b.axis.dot (pix.edge k)) :
    b.intersects_edge_loop pix vs s (k :: ks)
      = b.intersects_edge_loop pix vs s ks := by
  simp [circle_bound.intersects_edge_loop, h]

theorem intersects_edge_loop_term (b : circle_bound) (pix : pixel)
    (vs : List point) (s : ℚ) (k : ℕ) (ks : List ℕ)
    (h0 : b.axis.dot (pix.edge k) ≤ 0)
    (h1 : s < b.axis.dot (pix.edge k) * b.axis.dot (pix.edge k)) :
    b.intersects_edge_loop pix vs s (k :: ks) = false := by
  simp [circle_bound.intersects_edge_loop, not_lt.mpr h0, h1]

theorem intersects_edge_loop_confirm (b : circle_bound) (pix : pixel)
    (vs : List point) (s : ℚ) (k : ℕ) (ks : List ℕ)
    (h0 : b.axis.dot (pix.edge k) ≤ 0)
    (h1 : b.axis.dot (pix.edge k) * b.axis.dot (pix.edge k) ≤ s)
    (h2 : ((pix.edge k).cross b.axis).dot (vs.getD k default) < 0)
    (h3 : 0 < ((pix.edge k).cross b.axis).dot (vs.getD ((k + 1) % 4) default)) :
    b.intersects_edge_loop pix vs s (k :: ks) = true := by
  simp only [List.getD_eq_getElem?_getD] at h2 h3
  simp [circle_bound.intersects_edge_loop, not_lt.mpr h0, not_lt.mpr h1,
    h2, h3]

theorem intersects_edge_loop_continue (b : circle_bound) (pix : pixel)
    (vs : List point) (k : ℕ) (ks : List ℕ)
    (h : edge_continues b pix vs k) :
    b.intersects_edge_loop pix vs (sin2_angle b) (k :: ks)
      = b.intersects_edge_loop pix vs (sin2_angle b) ks := by
  rcases h with hs | ⟨hnt, hnc⟩
  · exact intersects_edge_loop_skip _ _ _ _ _ _ hs
  · by_cases hd : 0 < b.axis.dot (pix.edge k)
    · exact intersects_edge_loop_skip _ _ _ _ _ _ hd
    · push_neg at hd
      have hterm : ¬sin2_angle b
          < b.axis.dot (pix.edge k) * b.axis.dot (pix.edge k) := by
        intro hx
        exact hnt ⟨hd, hx⟩
      push_neg at hterm
      have hcross : ¬(((pix.edge k).cross b.axis).dot (vs.getD k default) < 0 ∧
          0 < ((pix.edge k).cross b.axis).dot
            (vs.getD ((k + 1) % 4) default)) := by
        intro hx
        exact hnc ⟨hd, hterm, hx.1, hx.2⟩
      simp only [List.getD_eq_getElem?_getD] at hcross
      simp [circle_bound.intersects_edge_loop, not_lt.mpr hd,
        not_lt.mpr hterm, hcross]

/-- C2 counterexample: for the cap `bHalf` (non-empty, height 1/2, axis not
contained in the pixel), edge 0 of `pixB` satisfies `dot <= 0` and
`dot * dot > height * (2 - height)`, and edge 1 satisfies every
crossing-confirmation condition against `vsB`.  The claim says such a
terminating edge is merely skipped, so edge 1 would confirm a crossing and
`intersects` would return true; the code returns false because it exits the
loop at edge 0. -/
theorem C2_counterexample :
    bHalf.is_empty = false ∧ 0 ≤ bHalf.height ∧ bHalf.height < 1 ∧
    pixB.containsPt bHalf.axis = false ∧
    edge_terminates bHalf pixB 0 ∧
    edge_confirms bHalf pixB vsB 1 ∧
    bHalf.intersects pixB vsB = false := by
  refine ⟨?_, ?_, ?_, ?_, ?_, ?_, ?_⟩ <;>
    norm_num [circle_bound.is_empty, bHalf, pixel.containsPt, pixB,
      edge_terminates, edge_confirms, edge_dot, sin2_angle, point.dot,
      point.cross, pixel.edge, vsB, pN, pS, pX, pY, pYn,
      circle_bound.intersects, circle_bound.intersects_edge_loop,
      circle_bound.contains_point]

/-- C2 amended: in the edge loop of `intersects` (non-empty bound of height
below 1 whose axis the pixel does not contain), an edge with `dot <= 0` and
`dot * dot > height * (2 - height)` does not merely contribute nothing — it
makes the function return false immediately, abandoning the remaining
edges; the function returns true when an edge confirming a crossing is
reached with every earlier edge letting the loop continue, and returns
false when all four edges let the loop continue. -/
theorem C2_terminating_edge_returns_false (b : circle_bound) (pix : pixel)
    (vs : List point) (hne : b.is_empty = false) (hh : b.height < 1)
    (hax : pix.containsPt b.axis = false) :
    (∀ k, k < 4 → edge_terminates b pix k →
      (∀ j, j < k → edge_continues b pix vs j) →
      b.intersects pix vs = false) ∧
    (∀ k, k < 4 → edge_confirms b pix vs k →
      (∀ j, j < k → edge_continues b pix vs j) →
      b.intersects pix vs = true) ∧
    ((∀ k, k < 4 → edge_continues b pix vs k) →
      b.intersects pix vs = false) := by
  have hunfold : b.intersects pix vs
      = b.intersects_edge_loop pix vs (sin2_angle b) [0, 1, 2, 3] := by
    have h1 : ¬b.height ≥ 1 := by linarith
    simp [circle_bound.intersects, h1, hne, hax, sin2_angle]
  refine ⟨?_, ?_, ?_⟩
  · intro k hk ht hc
    rw [hunfold]
    interval_cases k
    · exact intersects_edge_loop_term _ _ _ _ _ _ ht.1 ht.2
    · rw [intersects_edge_loop_continue _ _ _ _ _ (hc 0 (by norm_num))]
      exact intersects_edge_loop_term _ _ _ _ _ _ ht.1 ht.2
    · rw [intersects_edge_loop_continue _ _ _ _ _ (hc 0 (by norm_num)),
        intersects_edge_loop_continue _ _ _ _ _ (hc 1 (by norm_num))]
      exact intersects_edge_loop_term _ _ _ _ _ _ ht.1 ht.2
    · rw [intersects_edge_loop_continue _ _ _ _ _ (hc 0 (by norm_num)),
        intersects_edge_loop_continue _ _ _ _ _ (hc 1 (by norm_num)),
        intersects_edge_loop_continue _ _ _ _ _ (hc 2 (by norm_num))]
      exact intersects_edge_loop_term _ _ _ _ _ _ ht.1 ht.2
  · intro k hk hcf hc
    rw [hunfold]
    interval_cases k
    · exact intersects_edge_loop_confirm _ _ _ _ _ _ hcf.1 hcf.2.1
        hcf.2.2.1 hcf.2.2.2
    · rw [intersects_edge_loop_continue _ _ _ _ _ (hc 0 (by norm_num))]
      exact intersects_edge_loop_confirm _ _ _ _ _ _ hcf.1 hcf.2.1
        hcf.2.2.1 hcf.2.2.2
    · rw [intersects_edge_loop_continue _ _ _ _ _ (hc 0 (by norm_num)),
        intersects_edge_loop_continue _ _ _ _ _ (hc 1 (by norm_num))]
      exact intersects_edge_loop_confirm _ _ _ _ _ _ hcf.1 hcf.2.1
        hcf.2.2.1 hcf.2.2.2
    · rw [intersects_edge_loop_continue _ _ _ _ _ (hc 0 (by norm_num)),
        intersects_edge_loop_continue _ _ _ _ _ (hc 1 (by norm_num)),
        intersects_edge_loop_continue _ _ _ _ _ (hc 2 (by norm_num))]
      exact intersects_edge_loop_confirm _ _ _ _ _ _ hcf.1 hcf.2.1
        hcf.2.2.1 hcf.2.2.2
  · intro hc
    rw [hunfold,
      intersects_edge_loop_continue _ _ _ _ _ (hc 0 (by norm_num)),
      intersects_edge_loop_continue _ _ _ _ _ (hc 1 (by norm_num)),
      intersects_edge_loop_continue _ _ _ _ _ (hc 2 (by norm_num)),
      intersects_edge_loop_continue _ _ _ _ _ (hc 3 (by norm_num))]
    exact intersects_edge_loop_nil _ _ _ _

/-- C2 witness: edge 0 of `pixBw` confirms a crossing against `vsBw` for
the half cap, so `intersects` returns true. -/
theorem C2_witness : bHalf.intersects pixBw vsBw = true := by
  have h := C2_terminating_edge_returns_false bHalf pixBw vsBw
    (by norm_num [circle_bound.is_empty, bHalf])
    (by norm_num [bHalf])
    (by norm_num [pixel.containsPt, pixBw])
  refine h.2.1 0 (by norm_num) ?_ (fun j hj => absurd hj (by omega))
  refine ⟨?_, ?_, ?_, ?_⟩ <;>
    norm_num [edge_confirms, edge_dot, sin2_angle, point.dot, point.cross,
      pixel.edge, pixBw, vsBw, bHalf, pN, pX, pY, pYn]

end s2omp
